import Mathlib

/-!
Verification of the slowverb audio core against its specification.

The development shallowly embeds the two algorithmic components of the
repository in Lean:

* the granular pitch shifter (`PitchShifterProcessor` in
  `src/lib/constants.js`, an AudioWorklet processor), and
* the impulse-response generators (`generateImpulseResponse`, the
  Freeverb-style Variant B in `src/lib/audio-utils.js` and the simple
  decaying-noise Variant A in the injected content script), together with
  the scalar parameter-mapping functions (`calculateWetDryMix`).

Modelling conventions:

* JavaScript numbers are modelled as exact rationals (`ℚ`); floating-point
  rounding is outside the scope of the spec, which states its numeric
  claims at real-number level.
* `Float32Array`s are `List ℚ`; out-of-range reads yield the default `0`
  (in the code every access is reduced modulo the buffer capacity first,
  which is exactly what the safety claims are about) and `List.set` is a
  no-op out of range, matching a write that is never out of range.
* Transcendental primitives of the host (`Math.cos`, `Math.PI`,
  `Math.exp`, `Math.pow`, `Math.random`) are taken as explicit function
  parameters, so every definition stays computable; theorems quantify over
  them, and hypotheses state the contracts the host guarantees
  (e.g. `Math.random` yields values in `[0, 1]`).
* The JavaScript remainder `%` on possibly-negative integer values is
  `Int.tmod` (truncated remainder, the sign convention of JavaScript);
  on natural numbers it is `Nat.mod`.
-/

namespace Slowverb

/-- Runs a one-sample-in/one-sample-out stateful filter over a signal,
threading the filter state through; the Lean rendering of the JavaScript
`for` loops that update mutable filter state while filling an output
array of the same length as the input. -/
def scanOut {σ : Type} (step : σ → ℚ → ℚ × σ) : σ → List ℚ → List ℚ
  | _, [] => []
  | st, x :: xs =>
    let ys := step st x
    ys.1 :: scanOut step ys.2 xs

theorem scanOut_length {σ : Type} (step : σ → ℚ → ℚ × σ) (st : σ) (xs : List ℚ) :
    (scanOut step st xs).length = xs.length := by
  induction xs generalizing st with
  | nil => rfl
  | cons x xs ih => simp [scanOut, ih]

/-! ## The granular pitch shifter

Embedding of `class PitchShifterProcessor` from `src/lib/constants.js`.
The mutable instance fields of the class become the fields of
`PitchShifterState`; the methods become state-transforming functions. -/

/-- The instance state of `PitchShifterProcessor`, fields in constructor
order. `samplesUntilNextGrain` is an integer because the grain-scheduling
loop drives it negative before re-adding the hop size. -/
structure PitchShifterState where
  grainSize : ℕ
  overlapFactor : ℚ
  hopSize : ℕ
  bufferSize : ℕ
  inputBuffer : List ℚ
  writeIndex : ℕ
  readPosition : ℚ
  outputBuffer : List ℚ
  outputReadIndex : ℕ
  outputWriteIndex : ℕ
  window : List ℚ
  grainCounter : ℕ
  samplesUntilNextGrain : ℤ
  bypass : Bool
  deriving Repr, DecidableEq

/-- `Math.floor(this.grainSize * (1 - this.overlapFactor))`, the hop-size
computation shared by the constructor and the `setGrainSize` handler. -/
def computeHopSize (grainSize : ℕ) (overlapFactor : ℚ) : ℕ :=
  (⌊(grainSize : ℚ) * (1 - overlapFactor)⌋).toNat

/-- `createHannWindow(size)`: `window[i] = 0.5 * (1 - Math.cos(2π i / (size-1)))`.
`cosF` and `piV` stand for the host's `Math.cos` and `Math.PI`. -/
def createHannWindow (cosF : ℚ → ℚ) (piV : ℚ) (size : ℕ) : List ℚ :=
  (List.range size).map fun (i : ℕ) => 0.5 * (1 - cosF (2 * piV * i / ((size : ℚ) - 1)))

/-- The constructor of `PitchShifterProcessor`: grain size 2048, 50%
overlap, input ring of capacity `grainSize * 4`, output overlap-add ring
of capacity `grainSize * 2`, all cursors zero, bypass initially on. -/
def initState (cosF : ℚ → ℚ) (piV : ℚ) : PitchShifterState where
  grainSize := 2048
  overlapFactor := 0.5
  hopSize := computeHopSize 2048 0.5
  bufferSize := 2048 * 4
  inputBuffer := List.replicate (2048 * 4) 0
  writeIndex := 0
  readPosition := 0
  outputBuffer := List.replicate (2048 * 2) 0
  outputReadIndex := 0
  outputWriteIndex := 0
  window := createHannWindow cosF piV 2048
  grainCounter := 0
  samplesUntilNextGrain := 0
  bypass := true

/-- The messages the worklet accepts over its port (`handleMessage`). -/
inductive WorkletCommand where
  | setBypass (value : Bool)
  | setGrainSize (value : ℕ)

/-- `handleMessage`: `setBypass` stores the flag; `setGrainSize` accepts
only values in `[512, 4096]`, silently ignoring anything else, and on
acceptance recomputes `hopSize` and the Hann window (but, as in the
source, resizes neither ring buffer). -/
def handleMessage (cosF : ℚ → ℚ) (piV : ℚ) (s : PitchShifterState) :
    WorkletCommand → PitchShifterState
  | .setBypass v => { s with bypass := v }
  | .setGrainSize v =>
    if 512 ≤ v ∧ v ≤ 4096 then
      { s with
        grainSize := v
        hopSize := computeHopSize v s.overlapFactor
        window := createHannWindow cosF piV v }
    else s

/-- `Math.floor(this.readPosition) % this.bufferSize` — the grain's start
index in the input ring (`grainStartIndex` in `processGrain`). -/
def grainStartIndex (s : PitchShifterState) : ℤ :=
  (⌊s.readPosition⌋).tmod s.bufferSize

/-- `idx0 = (grainStartIndex + Math.floor(i * pitchFactor)) % bufferSize`,
the first interpolation tap of grain sample `i`. -/
def grainSrcIdx0 (s : PitchShifterState) (i : ℕ) (p : ℚ) : ℤ :=
  (grainStartIndex s + ⌊(i : ℚ) * p⌋).tmod s.bufferSize

/-- `idx1 = (grainStartIndex + Math.floor(i * pitchFactor) + 1) % bufferSize`,
the second interpolation tap of grain sample `i`. -/
def grainSrcIdx1 (s : PitchShifterState) (i : ℕ) (p : ℚ) : ℤ :=
  (grainStartIndex s + ⌊(i : ℚ) * p⌋ + 1).tmod s.bufferSize

/-- `outputIdx = (this.outputWriteIndex + i) % this.outputBuffer.length`,
the overlap-add target slot of grain sample `i`. -/
def grainOutIdx (s : PitchShifterState) (i : ℕ) : ℕ :=
  (s.outputWriteIndex + i) % s.outputBuffer.length

/-- The windowed, linearly interpolated sample the grain loop adds into
the output ring at step `i` (`windowedSample` in `processGrain`):
`frac = i·p - ⌊i·p⌋`, `sample0 + frac * (sample1 - sample0)` times the
Hann coefficient `window[i]`. -/
def grainContribution (s : PitchShifterState) (p : ℚ) (i : ℕ) : ℚ :=
  let sourcePos := (i : ℚ) * p
  let frac := sourcePos - ⌊sourcePos⌋
  let sample0 := s.inputBuffer.getD (grainSrcIdx0 s i p).toNat 0
  let sample1 := s.inputBuffer.getD (grainSrcIdx1 s i p).toNat 0
  (sample0 + frac * (sample1 - sample0)) * s.window.getD i 0

/-- One iteration of the `for` loop in `processGrain`: overlap-add the
windowed sample into the output ring slot `outputIdx`. -/
def grainFoldStep (s : PitchShifterState) (p : ℚ) (ob : List ℚ) (i : ℕ) : List ℚ :=
  ob.set (grainOutIdx s i) (ob.getD (grainOutIdx s i) 0 + grainContribution s p i)

/-- `processGrain(pitchFactor)`: run the grain loop over `i < grainSize`,
then advance `readPosition` by the hop size (not scaled by the pitch
factor) and `outputWriteIndex` by the hop size modulo the output ring
capacity. -/
def processGrain (s : PitchShifterState) (p : ℚ) : PitchShifterState :=
  let outBuf := (List.range s.grainSize).foldl (grainFoldStep s p) s.outputBuffer
  { s with
    outputBuffer := outBuf
    readPosition := s.readPosition + (s.hopSize : ℚ)
    outputWriteIndex := (s.outputWriteIndex + s.hopSize) % s.outputBuffer.length }

/-- The grain-scheduling `while (samplesUntilNextGrain <= 0)` loop of
`process`: emit a grain, re-add the hop size, bump `grainCounter`.
The source loop terminates because `hopSize` is positive in every
reachable configuration; the `0 < hopSize` conjunct makes that measure
explicit (with a zero hop size the JavaScript loop would not terminate,
so the guard restricts nothing that the code can reach). -/
def grainLoop (p : ℚ) (s : PitchShifterState) : PitchShifterState :=
  if s.samplesUntilNextGrain ≤ 0 ∧ 0 < s.hopSize then
    let s2 := processGrain s p
    grainLoop p
      { s2 with
        samplesUntilNextGrain := s2.samplesUntilNextGrain + s2.hopSize
        grainCounter := s2.grainCounter + 1 }
  else s
termination_by (1 - s.samplesUntilNextGrain).toNat
decreasing_by simp only [processGrain]; omega

/-- One iteration of the input-accumulation loop of `process`: store the
incoming sample at `writeIndex` and advance `writeIndex` modulo the input
ring capacity. -/
def writeInputStep (t : PitchShifterState) (x : ℚ) : PitchShifterState :=
  { t with
    inputBuffer := t.inputBuffer.set t.writeIndex x
    writeIndex := (t.writeIndex + 1) % t.bufferSize }

/-- One iteration of the output-draining loop of `process`: read the slot
under `outputReadIndex`, zero it for the next overlap-add cycle, advance
the cursor modulo the output ring capacity. -/
def readOutputStep (t : PitchShifterState) : ℚ × PitchShifterState :=
  (t.outputBuffer.getD t.outputReadIndex 0,
   { t with
     outputBuffer := t.outputBuffer.set t.outputReadIndex 0
     outputReadIndex := (t.outputReadIndex + 1) % t.outputBuffer.length })

/-- Drain `n` samples from the output ring (the final per-sample loop of
`process`), returning the emitted block and the updated state. -/
def drainOutput : ℕ → PitchShifterState → List ℚ × PitchShifterState
  | 0, t => ([], t)
  | n + 1, t =>
    let vt := readOutputStep t
    let rest := drainOutput n vt.2
    (vt.1 :: rest.1, rest.2)

/-- `process(inputs, outputs, parameters)` for one node input/output pair.
`input` is the list of input channels, `numOut` the number of output
channels the host provides (zero-filled, `blockSize` samples each), `p`
the block's (k-rate) pitch factor. Returns the updated state and the
output channels. Empty input or an empty first channel is a no-op; in
bypass (flag set, or pitch factor within `0.001` of `1`) every channel is
copied verbatim; otherwise channel 0 is accumulated into the input ring,
due grains are emitted, a block is drained from the output ring and
broadcast to the other output channels. -/
def process (s : PitchShifterState) (input : List (List ℚ)) (numOut : ℕ)
    (p : ℚ) : PitchShifterState × List (List ℚ) :=
  let blockSize := (input.headD []).length
  let silence := List.replicate numOut (List.replicate blockSize (0 : ℚ))
  if input.length = 0 then (s, silence)
  else if blockSize = 0 then (s, silence)
  else
    let numChannels := min input.length numOut
    if s.bypass = true ∨ |p - 1| < 0.001 then
      (s, (List.range numOut).map fun ch =>
        if ch < numChannels then
          (List.range blockSize).map fun i => (input.getD ch []).getD i 0
        else List.replicate blockSize 0)
    else
      let inputChannel := input.getD 0 []
      let s1 := inputChannel.foldl writeInputStep s
      let s2 := { s1 with samplesUntilNextGrain := s1.samplesUntilNextGrain - blockSize }
      let s3 := grainLoop p s2
      let drained := drainOutput blockSize s3
      (drained.2, (List.range numOut).map fun ch =>
        if ch < numChannels then drained.1
        else List.replicate blockSize 0)

/-- One `process` call of a call sequence: the channels of the input
block, the channel count of the host-provided output, and the block's
pitch factor. -/
structure ProcessCall where
  input : List (List ℚ)
  numOut : ℕ
  pitchFactor : ℚ

/-- A sequence of `process` calls, threading the processor state. -/
def processSeq (s : PitchShifterState) (calls : List ProcessCall) : PitchShifterState :=
  calls.foldl (fun t c => (process t c.input c.numOut c.pitchFactor).1) s

/-! ### Field-preservation lemmas -/

@[simp] theorem processGrain_grainSize (s : PitchShifterState) (p : ℚ) :
    (processGrain s p).grainSize = s.grainSize := rfl

@[simp] theorem processGrain_hopSize (s : PitchShifterState) (p : ℚ) :
    (processGrain s p).hopSize = s.hopSize := rfl

@[simp] theorem processGrain_overlapFactor (s : PitchShifterState) (p : ℚ) :
    (processGrain s p).overlapFactor = s.overlapFactor := rfl

@[simp] theorem processGrain_window (s : PitchShifterState) (p : ℚ) :
    (processGrain s p).window = s.window := rfl

@[simp] theorem processGrain_bufferSize (s : PitchShifterState) (p : ℚ) :
    (processGrain s p).bufferSize = s.bufferSize := rfl

@[simp] theorem processGrain_inputBuffer (s : PitchShifterState) (p : ℚ) :
    (processGrain s p).inputBuffer = s.inputBuffer := rfl

@[simp] theorem processGrain_writeIndex (s : PitchShifterState) (p : ℚ) :
    (processGrain s p).writeIndex = s.writeIndex := rfl

@[simp] theorem processGrain_outputReadIndex (s : PitchShifterState) (p : ℚ) :
    (processGrain s p).outputReadIndex = s.outputReadIndex := rfl

@[simp] theorem processGrain_grainCounter (s : PitchShifterState) (p : ℚ) :
    (processGrain s p).grainCounter = s.grainCounter := rfl

@[simp] theorem processGrain_samplesUntilNextGrain (s : PitchShifterState) (p : ℚ) :
    (processGrain s p).samplesUntilNextGrain = s.samplesUntilNextGrain := rfl

@[simp] theorem processGrain_bypass (s : PitchShifterState) (p : ℚ) :
    (processGrain s p).bypass = s.bypass := rfl

@[simp] theorem processGrain_readPosition (s : PitchShifterState) (p : ℚ) :
    (processGrain s p).readPosition = s.readPosition + (s.hopSize : ℚ) := rfl

@[simp] theorem processGrain_outputWriteIndex (s : PitchShifterState) (p : ℚ) :
    (processGrain s p).outputWriteIndex
      = (s.outputWriteIndex + s.hopSize) % s.outputBuffer.length := rfl

theorem grainFoldStep_length (s : PitchShifterState) (p : ℚ) (ob : List ℚ) (i : ℕ) :
    (grainFoldStep s p ob i).length = ob.length := by
  simp [grainFoldStep]

theorem foldl_grainFoldStep_length (s : PitchShifterState) (p : ℚ) (l : List ℕ)
    (ob : List ℚ) : (l.foldl (grainFoldStep s p) ob).length = ob.length := by
  induction l generalizing ob with
  | nil => rfl
  | cons a l ih => rw [List.foldl_cons, ih, grainFoldStep_length]

@[simp] theorem processGrain_outputBuffer_length (s : PitchShifterState) (p : ℚ) :
    (processGrain s p).outputBuffer.length = s.outputBuffer.length := by
  simpa [processGrain] using foldl_grainFoldStep_length s p (List.range s.grainSize) s.outputBuffer

/-- The fields `writeInputStep` leaves untouched (everything except the
input ring contents and the write cursor). -/
theorem foldl_writeInput_fields (l : List ℚ) (t : PitchShifterState) :
    (l.foldl writeInputStep t).grainSize = t.grainSize ∧
    (l.foldl writeInputStep t).overlapFactor = t.overlapFactor ∧
    (l.foldl writeInputStep t).hopSize = t.hopSize ∧
    (l.foldl writeInputStep t).bufferSize = t.bufferSize ∧
    (l.foldl writeInputStep t).readPosition = t.readPosition ∧
    (l.foldl writeInputStep t).outputBuffer = t.outputBuffer ∧
    (l.foldl writeInputStep t).outputReadIndex = t.outputReadIndex ∧
    (l.foldl writeInputStep t).outputWriteIndex = t.outputWriteIndex ∧
    (l.foldl writeInputStep t).window = t.window ∧
    (l.foldl writeInputStep t).grainCounter = t.grainCounter ∧
    (l.foldl writeInputStep t).samplesUntilNextGrain = t.samplesUntilNextGrain ∧
    (l.foldl writeInputStep t).bypass = t.bypass ∧
    (l.foldl writeInputStep t).inputBuffer.length = t.inputBuffer.length := by
  induction l generalizing t with
  | nil => exact ⟨rfl, rfl, rfl, rfl, rfl, rfl, rfl, rfl, rfl, rfl, rfl, rfl, rfl⟩
  | cons x l ih =>
    rw [List.foldl_cons]
    simpa [writeInputStep] using ih (writeInputStep t x)

/-- The fields `drainOutput` leaves untouched, plus preservation of the
output ring capacity. -/
theorem drainOutput_fields (n : ℕ) (t : PitchShifterState) :
    (drainOutput n t).2.grainSize = t.grainSize ∧
    (drainOutput n t).2.overlapFactor = t.overlapFactor ∧
    (drainOutput n t).2.hopSize = t.hopSize ∧
    (drainOutput n t).2.bufferSize = t.bufferSize ∧
    (drainOutput n t).2.inputBuffer = t.inputBuffer ∧
    (drainOutput n t).2.writeIndex = t.writeIndex ∧
    (drainOutput n t).2.readPosition = t.readPosition ∧
    (drainOutput n t).2.window = t.window ∧
    (drainOutput n t).2.grainCounter = t.grainCounter ∧
    (drainOutput n t).2.samplesUntilNextGrain = t.samplesUntilNextGrain ∧
    (drainOutput n t).2.bypass = t.bypass ∧
    (drainOutput n t).2.outputBuffer.length = t.outputBuffer.length := by
  induction n generalizing t with
  | zero => exact ⟨rfl, rfl, rfl, rfl, rfl, rfl, rfl, rfl, rfl, rfl, rfl, rfl⟩
  | succ n ih =>
    have h2 : (drainOutput (n + 1) t).2 = (drainOutput n (readOutputStep t).2).2 := rfl
    rw [h2]
    simpa [readOutputStep] using ih (readOutputStep t).2

/-! ### Grain-loop lemmas -/

theorem grainLoop_hopSize (p : ℚ) (s : PitchShifterState) :
    (grainLoop p s).hopSize = s.hopSize := by
  refine grainLoop.induct p (fun s => (grainLoop p s).hopSize = s.hopSize) ?_ ?_ s
  · intro t h s2 ih
    show (grainLoop p t).hopSize = t.hopSize
    rw [grainLoop, if_pos h]
    simp only [s2, processGrain_grainSize, processGrain_overlapFactor, processGrain_hopSize,
      processGrain_bufferSize, processGrain_inputBuffer, processGrain_writeIndex,
      processGrain_outputReadIndex, processGrain_window, processGrain_grainCounter,
      processGrain_samplesUntilNextGrain, processGrain_bypass] at ih
    simpa [processGrain_grainSize, processGrain_overlapFactor, processGrain_hopSize,
      processGrain_bufferSize, processGrain_inputBuffer, processGrain_writeIndex,
      processGrain_outputReadIndex, processGrain_window, processGrain_grainCounter,
      processGrain_samplesUntilNextGrain, processGrain_bypass] using ih
  · intro t h
    show (grainLoop p t).hopSize = t.hopSize
    rw [grainLoop, if_neg h]

theorem grainLoop_pos (p : ℚ) (s : PitchShifterState) (hh : 0 < s.hopSize) :
    0 < (grainLoop p s).samplesUntilNextGrain := by
  refine grainLoop.induct p
    (fun s => 0 < s.hopSize → 0 < (grainLoop p s).samplesUntilNextGrain) ?_ ?_ s hh
  · intro t h s2 ih _
    show 0 < (grainLoop p t).samplesUntilNextGrain
    rw [grainLoop, if_pos h]
    simp only [s2, processGrain_grainSize, processGrain_overlapFactor, processGrain_hopSize,
      processGrain_bufferSize, processGrain_inputBuffer, processGrain_writeIndex,
      processGrain_outputReadIndex, processGrain_window, processGrain_grainCounter,
      processGrain_samplesUntilNextGrain, processGrain_bypass] at ih
    simp only [processGrain_grainSize, processGrain_overlapFactor, processGrain_hopSize,
      processGrain_bufferSize, processGrain_inputBuffer, processGrain_writeIndex,
      processGrain_outputReadIndex, processGrain_window, processGrain_grainCounter,
      processGrain_samplesUntilNextGrain, processGrain_bypass]
    exact ih h.2
  · intro t h _
    show 0 < (grainLoop p t).samplesUntilNextGrain
    rw [grainLoop, if_neg h]
    omega

theorem grainLoop_le (p : ℚ) (s : PitchShifterState)
    (hle : s.samplesUntilNextGrain ≤ (s.hopSize : ℤ)) :
    (grainLoop p s).samplesUntilNextGrain ≤ (s.hopSize : ℤ) := by
  refine grainLoop.induct p
    (fun s => s.samplesUntilNextGrain ≤ (s.hopSize : ℤ) →
      (grainLoop p s).samplesUntilNextGrain ≤ (s.hopSize : ℤ)) ?_ ?_ s hle
  · intro t h s2 ih _
    show (grainLoop p t).samplesUntilNextGrain ≤ (t.hopSize : ℤ)
    rw [grainLoop, if_pos h]
    simp only [s2, processGrain_grainSize, processGrain_overlapFactor, processGrain_hopSize,
      processGrain_bufferSize, processGrain_inputBuffer, processGrain_writeIndex,
      processGrain_outputReadIndex, processGrain_window, processGrain_grainCounter,
      processGrain_samplesUntilNextGrain, processGrain_bypass] at ih
    simp only [processGrain_grainSize, processGrain_overlapFactor, processGrain_hopSize,
      processGrain_bufferSize, processGrain_inputBuffer, processGrain_writeIndex,
      processGrain_outputReadIndex, processGrain_window, processGrain_grainCounter,
      processGrain_samplesUntilNextGrain, processGrain_bypass]
    exact ih (by omega)
  · intro t h hle2
    show (grainLoop p t).samplesUntilNextGrain ≤ (t.hopSize : ℤ)
    rw [grainLoop, if_neg h]
    exact hle2

theorem grainLoop_grainCounter_ge (p : ℚ) (s : PitchShifterState) :
    s.grainCounter ≤ (grainLoop p s).grainCounter := by
  refine grainLoop.induct p (fun s => s.grainCounter ≤ (grainLoop p s).grainCounter) ?_ ?_ s
  · intro t h s2 ih
    show t.grainCounter ≤ (grainLoop p t).grainCounter
    rw [grainLoop, if_pos h]
    simp only [s2, processGrain_grainSize, processGrain_overlapFactor, processGrain_hopSize,
      processGrain_bufferSize, processGrain_inputBuffer, processGrain_writeIndex,
      processGrain_outputReadIndex, processGrain_window, processGrain_grainCounter,
      processGrain_samplesUntilNextGrain, processGrain_bypass] at ih
    simp only [processGrain_grainSize, processGrain_overlapFactor, processGrain_hopSize,
      processGrain_bufferSize, processGrain_inputBuffer, processGrain_writeIndex,
      processGrain_outputReadIndex, processGrain_window, processGrain_grainCounter,
      processGrain_samplesUntilNextGrain, processGrain_bypass]
    omega
  · intro t h
    show t.grainCounter ≤ (grainLoop p t).grainCounter
    rw [grainLoop, if_neg h]

theorem grainLoop_accounting (p : ℚ) (s : PitchShifterState) :
    (grainLoop p s).samplesUntilNextGrain
      = s.samplesUntilNextGrain
        + (s.hopSize : ℤ) * ((grainLoop p s).grainCounter - (s.grainCounter : ℤ)) := by
  refine grainLoop.induct p
    (fun s => (grainLoop p s).samplesUntilNextGrain
      = s.samplesUntilNextGrain
        + (s.hopSize : ℤ) * ((grainLoop p s).grainCounter - (s.grainCounter : ℤ))) ?_ ?_ s
  · intro t h s2 ih
    show (grainLoop p t).samplesUntilNextGrain
      = t.samplesUntilNextGrain
        + (t.hopSize : ℤ) * ((grainLoop p t).grainCounter - (t.grainCounter : ℤ))
    rw [grainLoop, if_pos h]
    simp only [s2, processGrain_grainSize, processGrain_overlapFactor, processGrain_hopSize,
      processGrain_bufferSize, processGrain_inputBuffer, processGrain_writeIndex,
      processGrain_outputReadIndex, processGrain_window, processGrain_grainCounter,
      processGrain_samplesUntilNextGrain, processGrain_bypass] at ih
    simp only [processGrain_grainSize, processGrain_overlapFactor, processGrain_hopSize,
      processGrain_bufferSize, processGrain_inputBuffer, processGrain_writeIndex,
      processGrain_outputReadIndex, processGrain_window, processGrain_grainCounter,
      processGrain_samplesUntilNextGrain, processGrain_bypass]
    rw [ih]
    push_cast
    ring
  · intro t h
    show (grainLoop p t).samplesUntilNextGrain
      = t.samplesUntilNextGrain
        + (t.hopSize : ℤ) * ((grainLoop p t).grainCounter - (t.grainCounter : ℤ))
    rw [grainLoop, if_neg h]
    ring

/-- The structural well-formedness of a processor state: the declared
ring capacities match the constructor's layout (`bufferSize = 4·G` input,
`2·G` output), the buffers have their declared capacities, every cursor
is inside its ring, and the fractional read cursor is nonnegative. -/
def Inv (s : PitchShifterState) : Prop :=
  0 < s.grainSize ∧
  s.bufferSize = 4 * s.grainSize ∧
  s.inputBuffer.length = s.bufferSize ∧
  s.outputBuffer.length = 2 * s.grainSize ∧
  s.writeIndex < s.bufferSize ∧
  s.outputReadIndex < s.outputBuffer.length ∧
  s.outputWriteIndex < s.outputBuffer.length ∧
  0 ≤ s.readPosition


/-! ### List helpers -/

theorem getD_map_range {α : Type} (f : ℕ → α) (n c : ℕ) (d : α) (h : c < n) :
    ((List.range n).map f).getD c d = f c := by
  have hlt : c < ((List.range n).map f).length := by simpa
  rw [List.getD_eq_getElem _ d hlt]
  simp

theorem map_getD_range (l : List ℚ) :
    (List.range l.length).map (fun i => l.getD i 0) = l := by
  apply List.ext_getElem
  · simp
  · intro i h1 h2
    simp only [List.getElem_map, List.getElem_range]
    exact List.getD_eq_getElem l 0 h2

/-- Claim C1: with the bypass flag set, or a pitch factor within `0.001`
of `1.0`, `process` copies every input channel sample-for-sample to the
corresponding output channel and leaves the whole processor state — in
particular `inputBuffer`, `outputBuffer`, `writeIndex`, `readPosition`,
`outputReadIndex`, `outputWriteIndex`, `samplesUntilNextGrain` and
`grainCounter` — unchanged, for every block with at least one channel and
at least one sample. -/
theorem bypass_is_stateless_passthrough
    (s : PitchShifterState) (input : List (List ℚ)) (numOut : ℕ) (p : ℚ)
    (hbyp : s.bypass = true ∨ |p - 1| < 0.001)
    (hne : input.length ≠ 0)
    (hbs : (input.headD []).length ≠ 0)
    (hch : ∀ ch ∈ input, ch.length = (input.headD []).length)
    (hout : input.length ≤ numOut) :
    (process s input numOut p).1 = s ∧
    ∀ c < input.length,
      (process s input numOut p).2.getD c [] = input.getD c [] := by
  have hq : process s input numOut p
      = (s, (List.range numOut).map fun ch =>
          if ch < min input.length numOut then
            (List.range (input.headD []).length).map fun i => (input.getD ch []).getD i 0
          else List.replicate (input.headD []).length 0) := by
    simp only [process]
    rw [if_neg hne, if_neg hbs, if_pos hbyp]
  rw [hq]
  refine ⟨rfl, ?_⟩
  intro c hc
  have hcn : c < numOut := lt_of_lt_of_le hc hout
  rw [getD_map_range _ numOut c [] hcn, if_pos (lt_min hc hcn)]
  have hmem : input.getD c [] ∈ input := by
    rw [List.getD_eq_getElem input [] hc]
    exact List.getElem_mem hc
  have hlen : (input.getD c []).length = (input.headD []).length := hch _ hmem
  rw [← hlen]
  exact map_getD_range (input.getD c [])

/-- Claim C1 witness: a concrete bypass block is passed through with the
state intact. -/
theorem bypass_is_stateless_passthrough_witness :
    (process (initState (fun _ => 1) 3) [[5, 7]] 2 2).1 = initState (fun _ => 1) 3 ∧
    ∀ c < ([[5, 7]] : List (List ℚ)).length,
      (process (initState (fun _ => 1) 3) [[5, 7]] 2 2).2.getD c []
        = ([[5, 7]] : List (List ℚ)).getD c [] :=
  bypass_is_stateless_passthrough (initState (fun _ => 1) 3) [[5, 7]] 2 2
    (Or.inl rfl) (by decide) (by decide)
    (by intro ch hch2; simp at hch2; simp [hch2]) (by decide)

/-- Claim C10: a non-bypass `process` call with a positive block size,
starting from any state with `samplesUntilNextGrain ≤ hopSize` (as in the
initial state, where it is `0`), re-establishes
`0 < samplesUntilNextGrain ≤ hopSize`; moreover the counter accounting
shows exactly one grain is emitted per `hopSize` consumed input samples:
the new counter equals the old one, minus the block size, plus `hopSize`
times the number of grains emitted during the call. -/
theorem grain_scheduling_invariant
    (s : PitchShifterState) (input : List (List ℚ)) (numOut : ℕ) (p : ℚ)
    (hbyp : s.bypass = false)
    (hp : ¬ |p - 1| < 0.001)
    (hne : input.length ≠ 0)
    (hbs : (input.headD []).length ≠ 0)
    (hhop : 0 < s.hopSize)
    (hinv : s.samplesUntilNextGrain ≤ (s.hopSize : ℤ)) :
    0 < (process s input numOut p).1.samplesUntilNextGrain ∧
    (process s input numOut p).1.samplesUntilNextGrain ≤ (s.hopSize : ℤ) ∧
    (process s input numOut p).1.hopSize = s.hopSize ∧
    s.grainCounter ≤ (process s input numOut p).1.grainCounter ∧
    (process s input numOut p).1.samplesUntilNextGrain
      = s.samplesUntilNextGrain - ((input.headD []).length : ℤ)
        + (s.hopSize : ℤ)
          * ((process s input numOut p).1.grainCounter - (s.grainCounter : ℤ)) := by
  match input, hne with
  | ch0 :: rest, _ =>
    have hbs0 : ch0.length ≠ 0 := by simpa using hbs
    have hbyp2 : ¬ (s.bypass = true ∨ |p - 1| < 0.001) := by
      simp [hbyp, hp]
    have hq : (process s (ch0 :: rest) numOut p).1
        = (drainOutput ch0.length (grainLoop p
            { ch0.foldl writeInputStep s with
              samplesUntilNextGrain :=
                (ch0.foldl writeInputStep s).samplesUntilNextGrain - (ch0.length : ℤ) })).2 := by
      simp only [process, List.headD_cons, List.getD_cons_zero]
      rw [if_neg (by simp), if_neg hbs0, if_neg hbyp2]
    have h1 := foldl_writeInput_fields ch0 s
    set s1 := ch0.foldl writeInputStep s with hs1
    set s2 : PitchShifterState :=
      { s1 with samplesUntilNextGrain := s1.samplesUntilNextGrain - (ch0.length : ℤ) } with hs2
    have hs2hop : s2.hopSize = s.hopSize := h1.2.2.1
    have hs2cnt : s2.samplesUntilNextGrain = s.samplesUntilNextGrain - (ch0.length : ℤ) := by
      simp [hs2, h1.2.2.2.2.2.2.2.2.2.2.1]
    have hs2gc : s2.grainCounter = s.grainCounter := h1.2.2.2.2.2.2.2.2.2.1
    set s3 := grainLoop p s2 with hs3
    have hd := drainOutput_fields ch0.length s3
    have hfinal_cnt : (process s (ch0 :: rest) numOut p).1.samplesUntilNextGrain
        = s3.samplesUntilNextGrain := by rw [hq]; exact hd.2.2.2.2.2.2.2.2.2.1
    have hfinal_hop : (process s (ch0 :: rest) numOut p).1.hopSize = s.hopSize := by
      rw [hq, hd.2.2.1, hs3, grainLoop_hopSize, hs2hop]
    have hfinal_gc : (process s (ch0 :: rest) numOut p).1.grainCounter = s3.grainCounter := by
      rw [hq]; exact hd.2.2.2.2.2.2.2.2.1
    have hpos : 0 < s3.samplesUntilNextGrain :=
      grainLoop_pos p s2 (by rw [hs2hop]; exact hhop)
    have hle : s3.samplesUntilNextGrain ≤ (s.hopSize : ℤ) := by
      have := grainLoop_le p s2 (by rw [hs2hop, hs2cnt]; omega)
      rwa [hs2hop] at this
    have hgc : s2.grainCounter ≤ s3.grainCounter := grainLoop_grainCounter_ge p s2
    have hacct := grainLoop_accounting p s2
    rw [hs2hop, hs2cnt, hs2gc] at hacct
    refine ⟨?_, ?_, hfinal_hop, ?_, ?_⟩
    · rw [hfinal_cnt]; exact hpos
    · rw [hfinal_cnt]; exact hle
    · rw [hfinal_gc]; omega
    · rw [hfinal_cnt, hfinal_gc, List.headD_cons]
      rw [← hs3] at hacct
      omega


/-- Claim C10 witness: one concrete non-bypass call on a small
well-formed state re-establishes the scheduling invariant. -/
theorem grain_scheduling_invariant_witness :
    0 < (process
      ⟨4, 0.5, 2, 16, List.replicate 16 0, 0, 0, List.replicate 8 0, 0, 0,
        List.replicate 4 0, 0, 0, false⟩ [[1, 2, 3]] 1 2).1.samplesUntilNextGrain ∧
    (process
      ⟨4, 0.5, 2, 16, List.replicate 16 0, 0, 0, List.replicate 8 0, 0, 0,
        List.replicate 4 0, 0, 0, false⟩ [[1, 2, 3]] 1 2).1.samplesUntilNextGrain
      ≤ ((2 : ℕ) : ℤ) ∧
    (process
      ⟨4, 0.5, 2, 16, List.replicate 16 0, 0, 0, List.replicate 8 0, 0, 0,
        List.replicate 4 0, 0, 0, false⟩ [[1, 2, 3]] 1 2).1.hopSize = 2 ∧
    (0 : ℕ) ≤ (process
      ⟨4, 0.5, 2, 16, List.replicate 16 0, 0, 0, List.replicate 8 0, 0, 0,
        List.replicate 4 0, 0, 0, false⟩ [[1, 2, 3]] 1 2).1.grainCounter ∧
    (process
      ⟨4, 0.5, 2, 16, List.replicate 16 0, 0, 0, List.replicate 8 0, 0, 0,
        List.replicate 4 0, 0, 0, false⟩ [[1, 2, 3]] 1 2).1.samplesUntilNextGrain
      = 0 - (([[1, 2, 3]] : List (List ℚ)).headD []).length
        + ((2 : ℕ) : ℤ) * ((process
            ⟨4, 0.5, 2, 16, List.replicate 16 0, 0, 0, List.replicate 8 0, 0, 0,
              List.replicate 4 0, 0, 0, false⟩ [[1, 2, 3]] 1 2).1.grainCounter - ((0 : ℕ) : ℤ)) :=
  grain_scheduling_invariant
    ⟨4, 0.5, 2, 16, List.replicate 16 0, 0, 0, List.replicate 8 0, 0, 0,
      List.replicate 4 0, 0, 0, false⟩ [[1, 2, 3]] 1 2
    rfl (by norm_num) (by decide) (by decide) (by decide) (by decide)

/-- Claim C8: `setGrainSize` with a value outside `[512, 4096]` is a
silent no-op (the whole state, in particular `grainSize`, `hopSize` and
`window`, is retained); with a value inside the range, `grainSize`
becomes the value, `hopSize` becomes `⌊value · 0.5⌋`, and the Hann window
is recomputed with the new length. -/
theorem setGrainSize_clamp_and_ignore
    (cosF : ℚ → ℚ) (piV : ℚ) (s : PitchShifterState) (v : ℕ)
    (hov : s.overlapFactor = 0.5) :
    ((v < 512 ∨ 4096 < v) → handleMessage cosF piV s (.setGrainSize v) = s) ∧
    (512 ≤ v → v ≤ 4096 →
      (handleMessage cosF piV s (.setGrainSize v)).grainSize = v ∧
      (handleMessage cosF piV s (.setGrainSize v)).hopSize = (⌊(v : ℚ) * 0.5⌋).toNat ∧
      (handleMessage cosF piV s (.setGrainSize v)).window = createHannWindow cosF piV v ∧
      (handleMessage cosF piV s (.setGrainSize v)).window.length = v) := by
  constructor
  · intro hv
    simp only [handleMessage]
    rw [if_neg (by omega)]
  · intro h1 h2
    simp only [handleMessage]
    rw [if_pos ⟨h1, h2⟩]
    refine ⟨rfl, ?_, rfl, ?_⟩
    · show computeHopSize v s.overlapFactor = (⌊(v : ℚ) * 0.5⌋).toNat
      rw [hov]
      unfold computeHopSize
      norm_num
    · show (createHannWindow cosF piV v).length = v
      simp only [createHannWindow, List.length_map, List.length_range]

/-- Claim C8 witness: accepting `1024` on a concrete state sets the
derived fields as specified. -/
theorem setGrainSize_clamp_and_ignore_witness :
    (handleMessage (fun _ => 0) 0
      ⟨4, 0.5, 2, 16, List.replicate 16 0, 0, 0, List.replicate 8 0, 0, 0,
        List.replicate 4 0, 0, 0, false⟩ (.setGrainSize 1024)).grainSize = 1024 ∧
    (handleMessage (fun _ => 0) 0
      ⟨4, 0.5, 2, 16, List.replicate 16 0, 0, 0, List.replicate 8 0, 0, 0,
        List.replicate 4 0, 0, 0, false⟩ (.setGrainSize 1024)).hopSize
      = (⌊((1024 : ℕ) : ℚ) * 0.5⌋).toNat ∧
    (handleMessage (fun _ => 0) 0
      ⟨4, 0.5, 2, 16, List.replicate 16 0, 0, 0, List.replicate 8 0, 0, 0,
        List.replicate 4 0, 0, 0, false⟩ (.setGrainSize 1024)).window
      = createHannWindow (fun _ => 0) 0 1024 ∧
    (handleMessage (fun _ => 0) 0
      ⟨4, 0.5, 2, 16, List.replicate 16 0, 0, 0, List.replicate 8 0, 0, 0,
        List.replicate 4 0, 0, 0, false⟩ (.setGrainSize 1024)).window.length = 1024 :=
  (setGrainSize_clamp_and_ignore (fun _ => 0) 0
    ⟨4, 0.5, 2, 16, List.replicate 16 0, 0, 0, List.replicate 8 0, 0, 0,
      List.replicate 4 0, 0, 0, false⟩ 1024 rfl).2 (by norm_num) (by norm_num)


/-! ### Invariant preservation (ring-buffer safety) -/

theorem inv_writeInputStep (t : PitchShifterState) (x : ℚ) (h : Inv t) :
    Inv (writeInputStep t x) := by
  obtain ⟨h1, h2, h3, h4, h5, h6, h7, h8⟩ := h
  refine ⟨h1, h2, ?_, h4, ?_, h6, h7, h8⟩
  · simpa [writeInputStep] using h3
  · simp only [writeInputStep]
    exact Nat.mod_lt _ (by omega)

theorem inv_foldl_writeInput (l : List ℚ) (t : PitchShifterState) (h : Inv t) :
    Inv (l.foldl writeInputStep t) := by
  induction l generalizing t with
  | nil => exact h
  | cons x l ih => exact ih (writeInputStep t x) (inv_writeInputStep t x h)

theorem inv_processGrain (t : PitchShifterState) (p : ℚ) (h : Inv t) :
    Inv (processGrain t p) := by
  obtain ⟨h1, h2, h3, h4, h5, h6, h7, h8⟩ := h
  refine ⟨h1, h2, ?_, ?_, h5, ?_, ?_, ?_⟩
  · rw [processGrain_inputBuffer]; exact h3
  · rw [processGrain_outputBuffer_length]; exact h4
  · rw [processGrain_outputReadIndex, processGrain_outputBuffer_length]; exact h6
  · rw [processGrain_outputWriteIndex, processGrain_outputBuffer_length]
    exact Nat.mod_lt _ (by omega)
  · rw [processGrain_readPosition]
    positivity

theorem inv_grainLoop (p : ℚ) (s : PitchShifterState) (h : Inv s) :
    Inv (grainLoop p s) := by
  refine grainLoop.induct p (fun s => Inv s → Inv (grainLoop p s)) ?_ ?_ s h
  · intro t hc s2 ih ht
    show Inv (grainLoop p t)
    rw [grainLoop, if_pos hc]
    refine ih ?_
    have hg := inv_processGrain t p ht
    obtain ⟨g1, g2, g3, g4, g5, g6, g7, g8⟩ := hg
    exact ⟨g1, g2, g3, g4, g5, g6, g7, g8⟩
  · intro t hc ht
    show Inv (grainLoop p t)
    rw [grainLoop, if_neg hc]
    exact ht

theorem inv_readOutputStep (t : PitchShifterState) (h : Inv t) :
    Inv (readOutputStep t).2 := by
  obtain ⟨h1, h2, h3, h4, h5, h6, h7, h8⟩ := h
  refine ⟨h1, h2, h3, ?_, h5, ?_, ?_, h8⟩
  · simpa [readOutputStep] using h4
  · simp only [readOutputStep, List.length_set]
    exact Nat.mod_lt _ (by omega)
  · simpa [readOutputStep, List.length_set] using h7

theorem inv_drainOutput (n : ℕ) (t : PitchShifterState) (h : Inv t) :
    Inv (drainOutput n t).2 := by
  induction n generalizing t with
  | zero => exact h
  | succ n ih =>
    have h2 : (drainOutput (n + 1) t).2 = (drainOutput n (readOutputStep t).2).2 := rfl
    rw [h2]
    exact ih (readOutputStep t).2 (inv_readOutputStep t h)

theorem inv_process (s : PitchShifterState) (input : List (List ℚ)) (numOut : ℕ)
    (p : ℚ) (h : Inv s) : Inv (process s input numOut p).1 := by
  by_cases hb1 : input.length = 0
  · simp only [process]
    rw [if_pos hb1]
    exact h
  by_cases hb2 : (input.headD []).length = 0
  · simp only [process]
    rw [if_neg hb1, if_pos hb2]
    exact h
  by_cases hb3 : s.bypass = true ∨ |p - 1| < 0.001
  · simp only [process]
    rw [if_neg hb1, if_neg hb2, if_pos hb3]
    exact h
  · have hq : (process s input numOut p).1
        = (drainOutput (input.headD []).length (grainLoop p
            { (input.getD 0 []).foldl writeInputStep s with
              samplesUntilNextGrain :=
                ((input.getD 0 []).foldl writeInputStep s).samplesUntilNextGrain
                  - (((input.headD []).length : ℕ) : ℤ) })).2 := by
      simp only [process]
      rw [if_neg hb1, if_neg hb2, if_neg hb3]
    rw [hq]
    apply inv_drainOutput
    apply inv_grainLoop
    have hfold := inv_foldl_writeInput (input.getD 0 []) s h
    obtain ⟨g1, g2, g3, g4, g5, g6, g7, g8⟩ := hfold
    exact ⟨g1, g2, g3, g4, g5, g6, g7, g8⟩

theorem inv_processSeq (s : PitchShifterState) (calls : List ProcessCall) (h : Inv s) :
    Inv (processSeq s calls) := by
  induction calls generalizing s with
  | nil => exact h
  | cons c calls ih =>
    exact ih (process s c.input c.numOut c.pitchFactor).1
      (inv_process s c.input c.numOut c.pitchFactor h)

theorem inv_initState (cosF : ℚ → ℚ) (piV : ℚ) : Inv (initState cosF piV) := by
  refine ⟨?_, ?_, ?_, ?_, ?_, ?_, ?_, ?_⟩
  · show (0 : ℕ) < 2048
    norm_num
  · show (2048 * 4 : ℕ) = 4 * 2048
    norm_num
  · show (List.replicate (2048 * 4) (0 : ℚ)).length = 2048 * 4
    rw [List.length_replicate]
  · show (List.replicate (2048 * 2) (0 : ℚ)).length = 2 * 2048
    rw [List.length_replicate]
  · show (0 : ℕ) < 2048 * 4
    norm_num
  · show (0 : ℕ) < (List.replicate (2048 * 2) (0 : ℚ)).length
    rw [List.length_replicate]
    norm_num
  · show (0 : ℕ) < (List.replicate (2048 * 2) (0 : ℚ)).length
    rw [List.length_replicate]
    norm_num
  · show (0 : ℚ) ≤ 0
    exact le_refl 0


theorem tmod_nonneg_lt (a b : ℤ) (ha : 0 ≤ a) (hb : 0 < b) :
    0 ≤ a.tmod b ∧ a.tmod b < b := by
  rw [Int.tmod_eq_emod ha (le_of_lt hb)]
  exact ⟨Int.emod_nonneg a (ne_of_gt hb), Int.emod_lt_of_pos a hb⟩

/-- Claim C2: starting from the constructed state, every sequence of
`process` calls keeps the processor well formed, and in every well-formed
state every index the pitch shifter uses into `inputBuffer` (the two
interpolation taps, which are reduced `% bufferSize`, including the
`sourceIndex + 1` neighbour tap) and into `outputBuffer` (the overlap-add
slot, reduced `% outputBuffer.length`, plus the `writeIndex` and
`outputReadIndex` cursors) lies inside the declared ring capacities
(`bufferSize = 4·grainSize`, output capacity `2·grainSize`). -/
theorem ring_buffer_index_safety (cosF : ℚ → ℚ) (piV : ℚ) :
    Inv (initState cosF piV) ∧
    (∀ (s : PitchShifterState) (input : List (List ℚ)) (numOut : ℕ) (p : ℚ),
      Inv s → Inv (process s input numOut p).1) ∧
    (∀ (s : PitchShifterState) (p : ℚ), Inv s → Inv (processGrain s p)) ∧
    (∀ (s : PitchShifterState) (calls : List ProcessCall),
      Inv s → Inv (processSeq s calls)) ∧
    (∀ (s : PitchShifterState) (i : ℕ) (p : ℚ), Inv s → 0 ≤ p →
      0 ≤ grainSrcIdx0 s i p ∧ grainSrcIdx0 s i p < (s.bufferSize : ℤ) ∧
      0 ≤ grainSrcIdx1 s i p ∧ grainSrcIdx1 s i p < (s.bufferSize : ℤ) ∧
      grainOutIdx s i < s.outputBuffer.length ∧
      s.writeIndex < s.bufferSize ∧
      s.outputReadIndex < s.outputBuffer.length) := by
  refine ⟨inv_initState cosF piV, inv_process, inv_processGrain, inv_processSeq, ?_⟩
  intro s i p hinv hp
  obtain ⟨h1, h2, h3, h4, h5, h6, h7, h8⟩ := hinv
  have hbpos : (0 : ℤ) < (s.bufferSize : ℤ) := by
    have : 0 < s.bufferSize := by omega
    exact_mod_cast this
  have hstart := tmod_nonneg_lt ⌊s.readPosition⌋ s.bufferSize (Int.floor_nonneg.mpr h8) hbpos
  have hfloor : 0 ≤ ⌊(i : ℚ) * p⌋ :=
    Int.floor_nonneg.mpr (mul_nonneg (by positivity) hp)
  have hidx0 := tmod_nonneg_lt (grainStartIndex s + ⌊(i : ℚ) * p⌋) s.bufferSize
    (by unfold grainStartIndex; omega) hbpos
  have hidx1 := tmod_nonneg_lt (grainStartIndex s + ⌊(i : ℚ) * p⌋ + 1) s.bufferSize
    (by unfold grainStartIndex; omega) hbpos
  refine ⟨hidx0.1, hidx0.2, hidx1.1, hidx1.2, ?_, h5, h6⟩
  unfold grainOutIdx
  exact Nat.mod_lt _ (by omega)

/-- Claim C2 witness: concrete in-range indices at the initial state. -/
theorem ring_buffer_index_safety_witness :
    0 ≤ grainSrcIdx0 (initState (fun _ => 1) 3) 7 (3 / 2) ∧
    grainSrcIdx0 (initState (fun _ => 1) 3) 7 (3 / 2)
      < ((initState (fun _ => 1) 3).bufferSize : ℤ) ∧
    0 ≤ grainSrcIdx1 (initState (fun _ => 1) 3) 7 (3 / 2) ∧
    grainSrcIdx1 (initState (fun _ => 1) 3) 7 (3 / 2)
      < ((initState (fun _ => 1) 3).bufferSize : ℤ) ∧
    grainOutIdx (initState (fun _ => 1) 3) 7
      < (initState (fun _ => 1) 3).outputBuffer.length ∧
    (initState (fun _ => 1) 3).writeIndex < (initState (fun _ => 1) 3).bufferSize ∧
    (initState (fun _ => 1) 3).outputReadIndex
      < (initState (fun _ => 1) 3).outputBuffer.length :=
  (ring_buffer_index_safety (fun _ => 1) 3).2.2.2.2 (initState (fun _ => 1) 3) 7 (3 / 2)
    (ring_buffer_index_safety (fun _ => 1) 3).1 (by norm_num)


/-! ### Overlap-add fold lemmas -/

theorem getD_set_self_of_lt (l : List ℚ) (q : ℕ) (a : ℚ) (h : q < l.length) :
    (l.set q a).getD q 0 = a := by
  rw [List.getD_eq_getElem?_getD, List.getElem?_set_eq_of_lt a h]
  rfl

theorem getD_set_ne_of_ne (l : List ℚ) (q r : ℕ) (a : ℚ) (h : q ≠ r) :
    (l.set q a).getD r 0 = l.getD r 0 := by
  rw [List.getD_eq_getElem?_getD, List.getElem?_set_ne h, ← List.getD_eq_getElem?_getD]

theorem grainFold_untouched (s : PitchShifterState) (p : ℚ) (l : List ℕ) (b : List ℚ)
    (q : ℕ) (h : ∀ k ∈ l, grainOutIdx s k ≠ q) :
    (l.foldl (grainFoldStep s p) b).getD q 0 = b.getD q 0 := by
  induction l generalizing b with
  | nil => rfl
  | cons a l ih =>
    rw [List.foldl_cons, ih _ (fun k hk => h k (List.mem_cons_of_mem a hk))]
    unfold grainFoldStep
    exact getD_set_ne_of_ne _ _ _ _ (h a (List.mem_cons_self a l))

theorem grainFoldStep_eq (s : PitchShifterState) (p : ℚ) (ob : List ℚ) (k : ℕ) :
    grainFoldStep s p ob k
      = ob.set (grainOutIdx s k) (ob.getD (grainOutIdx s k) 0 + grainContribution s p k) := rfl

theorem grainFold_getD (s : PitchShifterState) (p : ℚ) (n : ℕ) (b : List ℚ)
    (hinj : ∀ i < n, ∀ j < n, grainOutIdx s i = grainOutIdx s j → i = j)
    (hlt : ∀ i < n, grainOutIdx s i < b.length) :
    ∀ i < n, ((List.range n).foldl (grainFoldStep s p) b).getD (grainOutIdx s i) 0
      = b.getD (grainOutIdx s i) 0 + grainContribution s p i := by
  induction n with
  | zero => intro i hi; omega
  | succ n ih =>
    intro i hi
    rw [List.range_succ, List.foldl_append, List.foldl_cons, List.foldl_nil]
    by_cases hin : i = n
    · rw [hin]
      rw [grainFoldStep_eq]
      have hlen := foldl_grainFoldStep_length s p (List.range n) b
      have huntouched : ∀ k ∈ List.range n, grainOutIdx s k ≠ grainOutIdx s n := by
        intro k hk heq
        have hkn : k < n := List.mem_range.mp hk
        have := hinj k (by omega) n (by omega) heq
        omega
      rw [getD_set_self_of_lt _ _ _ (by rw [hlen]; exact hlt n (by omega))]
      rw [grainFold_untouched s p (List.range n) b (grainOutIdx s n) huntouched]
    · have hi2 : i < n := by omega
      rw [grainFoldStep_eq]
      have hne : grainOutIdx s n ≠ grainOutIdx s i := by
        intro heq
        have := hinj n (by omega) i (by omega) heq
        omega
      rw [getD_set_ne_of_ne _ _ _ _ hne]
      exact ih (fun a ha b2 hb2 hab => hinj a (by omega) b2 (by omega) hab)
        (fun a ha => hlt a (by omega)) i hi2

/-- Claim C3: each grain emission adds, at overlap-add slot
`(outputWriteIndex + i) % outputCapacity` for every `i < G`, the linear
interpolation of the two input-ring taps at
`(⌊readPosition⌋ % capacity + ⌊i·p⌋) % capacity` and its successor tap,
weighted by the fractional part of `i·p` and by the Hann coefficient
`0.5 (1 - cos (2 π i / (G - 1)))`; afterwards `readPosition` has grown by
exactly the hop `G / 2` (not scaled by `p`) and `outputWriteIndex` has
advanced by the hop modulo the output capacity `2·G`. -/
theorem grain_emission_formula
    (s : PitchShifterState) (p : ℚ) (cosF : ℚ → ℚ) (piV : ℚ) (i : ℕ)
    (hG : 0 < s.grainSize)
    (hout : s.outputBuffer.length = 2 * s.grainSize)
    (hwin : s.window = createHannWindow cosF piV s.grainSize)
    (hhop : s.hopSize = s.grainSize / 2)
    (hi : i < s.grainSize) :
    (processGrain s p).outputBuffer.getD (grainOutIdx s i) 0
      = s.outputBuffer.getD (grainOutIdx s i) 0
        + (s.inputBuffer.getD (grainSrcIdx0 s i p).toNat 0
           + ((i : ℚ) * p - ⌊(i : ℚ) * p⌋)
             * (s.inputBuffer.getD (grainSrcIdx1 s i p).toNat 0
                - s.inputBuffer.getD (grainSrcIdx0 s i p).toNat 0))
          * (0.5 * (1 - cosF (2 * piV * i / ((s.grainSize : ℚ) - 1)))) ∧
    (processGrain s p).readPosition = s.readPosition + ((s.grainSize / 2 : ℕ) : ℚ) ∧
    (processGrain s p).outputWriteIndex
      = (s.outputWriteIndex + s.grainSize / 2) % (2 * s.grainSize) := by
  have houtpos : 0 < s.outputBuffer.length := by omega
  have hinj : ∀ a < s.grainSize, ∀ b < s.grainSize,
      grainOutIdx s a = grainOutIdx s b → a = b := by
    intro a ha b hb hab
    unfold grainOutIdx at hab
    have hmod : Nat.ModEq s.outputBuffer.length (s.outputWriteIndex + a)
        (s.outputWriteIndex + b) := hab
    have hab2 : Nat.ModEq s.outputBuffer.length a b :=
      Nat.ModEq.add_left_cancel' s.outputWriteIndex hmod
    exact Nat.ModEq.eq_of_lt_of_lt hab2 (by omega) (by omega)
  have hlt : ∀ a < s.grainSize, grainOutIdx s a < s.outputBuffer.length := by
    intro a ha
    exact Nat.mod_lt _ houtpos
  have hob : (processGrain s p).outputBuffer
      = (List.range s.grainSize).foldl (grainFoldStep s p) s.outputBuffer := rfl
  refine ⟨?_, ?_, ?_⟩
  · rw [hob, grainFold_getD s p s.grainSize s.outputBuffer hinj hlt i hi]
    congr 1
    show grainContribution s p i = _
    unfold grainContribution
    rw [hwin]
    unfold createHannWindow
    rw [getD_map_range (fun (k : ℕ) => 0.5 * (1 - cosF (2 * piV * k / ((s.grainSize : ℚ) - 1))))
      s.grainSize i 0 hi]
  · rw [processGrain_readPosition, hhop]
  · rw [processGrain_outputWriteIndex, hhop, hout]

/-- Claim C3 witness: the grain emission formula instantiated on a small
concrete state at `i = 1`. -/
theorem grain_emission_formula_witness :
    (processGrain
      ⟨4, 0.5, 2, 16, List.replicate 16 0, 0, 0, List.replicate 8 0, 0, 0,
        createHannWindow (fun _ => 0) 1 4, 0, 0, false⟩ 2).outputBuffer.getD
        (grainOutIdx
          ⟨4, 0.5, 2, 16, List.replicate 16 0, 0, 0, List.replicate 8 0, 0, 0,
            createHannWindow (fun _ => 0) 1 4, 0, 0, false⟩ 1) 0
      = (⟨4, 0.5, 2, 16, List.replicate 16 0, 0, 0, List.replicate 8 0, 0, 0,
          createHannWindow (fun _ => 0) 1 4, 0, 0, false⟩ :
            PitchShifterState).outputBuffer.getD
          (grainOutIdx
            ⟨4, 0.5, 2, 16, List.replicate 16 0, 0, 0, List.replicate 8 0, 0, 0,
              createHannWindow (fun _ => 0) 1 4, 0, 0, false⟩ 1) 0
        + ((⟨4, 0.5, 2, 16, List.replicate 16 0, 0, 0, List.replicate 8 0, 0, 0,
              createHannWindow (fun _ => 0) 1 4, 0, 0, false⟩ :
                PitchShifterState).inputBuffer.getD
            (grainSrcIdx0
              ⟨4, 0.5, 2, 16, List.replicate 16 0, 0, 0, List.replicate 8 0, 0, 0,
                createHannWindow (fun _ => 0) 1 4, 0, 0, false⟩ 1 2).toNat 0
           + (((1 : ℕ) : ℚ) * 2 - ⌊((1 : ℕ) : ℚ) * 2⌋)
             * ((⟨4, 0.5, 2, 16, List.replicate 16 0, 0, 0, List.replicate 8 0, 0, 0,
                   createHannWindow (fun _ => 0) 1 4, 0, 0, false⟩ :
                     PitchShifterState).inputBuffer.getD
                 (grainSrcIdx1
                   ⟨4, 0.5, 2, 16, List.replicate 16 0, 0, 0, List.replicate 8 0, 0, 0,
                     createHannWindow (fun _ => 0) 1 4, 0, 0, false⟩ 1 2).toNat 0
                - (⟨4, 0.5, 2, 16, List.replicate 16 0, 0, 0, List.replicate 8 0, 0, 0,
                     createHannWindow (fun _ => 0) 1 4, 0, 0, false⟩ :
                       PitchShifterState).inputBuffer.getD
                    (grainSrcIdx0
                      ⟨4, 0.5, 2, 16, List.replicate 16 0, 0, 0, List.replicate 8 0, 0, 0,
                        createHannWindow (fun _ => 0) 1 4, 0, 0, false⟩ 1 2).toNat 0))
          * (0.5 * (1 - (fun (_ : ℚ) => (0 : ℚ)) (2 * 1 * ((1 : ℕ) : ℚ) / (((4 : ℕ) : ℚ) - 1)))) ∧
    (processGrain
      ⟨4, 0.5, 2, 16, List.replicate 16 0, 0, 0, List.replicate 8 0, 0, 0,
        createHannWindow (fun _ => 0) 1 4, 0, 0, false⟩ 2).readPosition
      = 0 + (((4 : ℕ) / 2 : ℕ) : ℚ) ∧
    (processGrain
      ⟨4, 0.5, 2, 16, List.replicate 16 0, 0, 0, List.replicate 8 0, 0, 0,
        createHannWindow (fun _ => 0) 1 4, 0, 0, false⟩ 2).outputWriteIndex
      = (0 + (4 : ℕ) / 2) % (2 * 4) :=
  grain_emission_formula
    ⟨4, 0.5, 2, 16, List.replicate 16 0, 0, 0, List.replicate 8 0, 0, 0,
      createHannWindow (fun _ => 0) 1 4, 0, 0, false⟩ 2 (fun _ => 0) 1 1
    (by norm_num)
    (by show (List.replicate 8 (0 : ℚ)).length = 2 * 4; rw [List.length_replicate])
    rfl (by norm_num) (by norm_num)


/-! ## Parameter mapping and the Freeverb-style impulse-response
synthesizer (`src/lib/audio-utils.js`) -/

/-- One entry of the `CONSTRAINTS` table in `src/lib/constants.js`. -/
structure Constraint where
  lo : ℚ
  hi : ℚ
  step : ℚ

/-- `CONSTRAINTS.reverb = { min: 0, max: 100, step: 1 }`. -/
def CONSTRAINTS_reverb : Constraint := ⟨0, 100, 1⟩

/-- The result record `{ wetGain, dryGain }` of `calculateWetDryMix`. -/
structure WetDryMix where
  wetGain : ℚ
  dryGain : ℚ

/-- `calculateWetDryMix(reverbPercent)`: clamp to the reverb constraint
range, `wetGain = (p/100)·1.4`, `dryGain = 1 - p/400`. -/
def calculateWetDryMix (reverbPercent : ℚ) : WetDryMix :=
  let clampedPercent := max CONSTRAINTS_reverb.lo (min CONSTRAINTS_reverb.hi reverbPercent)
  { wetGain := clampedPercent / 100 * 1.4
    dryGain := 1 - clampedPercent / 400 }

/-- Claim C9: `calculateWetDryMix` computes
`wet = clamp(p,0,100)/100 · 1.4` and `dry = 1 - clamp(p,0,100)/400`; at the
endpoints `wetDryMix(0) = (0, 1)` and `wetDryMix(100) = (1.4, 0.75)`, and
the dry gain is never `0` for any input. -/
theorem wet_dry_mix_formula (r : ℚ) :
    (calculateWetDryMix r).wetGain = max 0 (min 100 r) / 100 * 1.4 ∧
    (calculateWetDryMix r).dryGain = 1 - max 0 (min 100 r) / 400 ∧
    (calculateWetDryMix 0).wetGain = 0 ∧
    (calculateWetDryMix 0).dryGain = 1 ∧
    (calculateWetDryMix 100).wetGain = 1.4 ∧
    (calculateWetDryMix 100).dryGain = 0.75 ∧
    (calculateWetDryMix r).dryGain ≠ 0 := by
  have hc100 : max (0 : ℚ) (min 100 r) ≤ 100 :=
    max_le (by norm_num) (min_le_left 100 r)
  refine ⟨rfl, rfl, by norm_num [calculateWetDryMix, CONSTRAINTS_reverb],
    by norm_num [calculateWetDryMix, CONSTRAINTS_reverb],
    by norm_num [calculateWetDryMix, CONSTRAINTS_reverb],
    by norm_num [calculateWetDryMix, CONSTRAINTS_reverb], ?_⟩
  show (1 : ℚ) - max CONSTRAINTS_reverb.lo (min CONSTRAINTS_reverb.hi r) / 400 ≠ 0
  have : max CONSTRAINTS_reverb.lo (min CONSTRAINTS_reverb.hi r) ≤ 100 := hc100
  intro hzero
  rw [sub_eq_zero] at hzero
  have h400 : max CONSTRAINTS_reverb.lo (min CONSTRAINTS_reverb.hi r) = 400 := by
    field_simp at hzero
    linarith
  linarith

/-- The stereo `AudioBuffer` a generator returns (`context.createBuffer(2,
length, sampleRate)` filled through `getChannelData`). -/
structure IRBuffer where
  numberOfChannels : ℕ
  sampleRate : ℚ
  left : List ℚ
  right : List ℚ

/-- One lowpass-feedback comb filter: its ring buffer, ring cursor and
one-pole low-pass state (`filterStore`). -/
structure CombState where
  buf : List ℚ
  idx : ℕ
  store : ℚ

/-- One per-sample step of one comb filter (the per-filter body of the
comb loop in `generateImpulseResponse`): emit the slot under the cursor,
run the one-pole low-pass on it, re-inject `input + store·roomSize`, and
advance the cursor modulo the delay length. -/
def combStep (roomSize damping : ℚ) (c : CombState) (x : ℚ) : ℚ × CombState :=
  let output := c.buf.getD c.idx 0
  let store2 := output * (1 - damping) + c.store * damping
  (output,
   { buf := c.buf.set c.idx (x + store2 * roomSize)
     idx := (c.idx + 1) % c.buf.length
     store := store2 })

/-- One per-sample step of the whole 8-filter comb bank of one channel:
run every filter on the same input sample, sum the outputs, divide by the
number of filters (`sum / 8` in the source). -/
def combBankStep (roomSize damping : ℚ) (bank : List CombState) (x : ℚ) :
    ℚ × List CombState :=
  let folded := bank.foldl (fun acc c =>
      let oc := combStep roomSize damping c x
      (acc.1 + oc.1, acc.2 ++ [oc.2])) ((0 : ℚ), ([] : List CombState))
  (folded.1 / 8, folded.2)

/-- Fresh comb filters for the given delay lengths (zero-filled
`Float32Array(d)` buffers, cursors and low-pass state at zero). -/
def initCombBank (delays : List ℕ) : List CombState :=
  delays.map fun d => { buf := List.replicate d 0, idx := 0, store := 0 }

/-- One allpass filter: its ring buffer and cursor. -/
structure AllpassState where
  buf : List ℚ
  idx : ℕ

/-- One per-sample allpass step: `output = -input·fb + buffered;
buffer[idx] = input + buffered·fb`, cursor advances modulo the delay. -/
def allpassStep (feedback : ℚ) (a : AllpassState) (x : ℚ) : ℚ × AllpassState :=
  let buffered := a.buf.getD a.idx 0
  (-x * feedback + buffered,
   { buf := a.buf.set a.idx (x + buffered * feedback)
     idx := (a.idx + 1) % a.buf.length })

/-- The sequential chain of the four allpass filters (each freshly
zero-initialized), applied stage after stage over the whole signal. -/
def allpassChain (feedback : ℚ) (delays : List ℕ) (sig : List ℚ) : List ℚ :=
  delays.foldl (fun cur d => scanOut (allpassStep feedback) ⟨List.replicate d 0, 0⟩ cur) sig

/-- `Math.floor(d * sampleRate / 44100)` — sample-rate scaling of the
fixed 44.1 kHz Freeverb delay lengths. -/
def scaleDelay (sampleRate : ℚ) (d : ℕ) : ℕ :=
  (⌊(d : ℚ) * sampleRate / 44100⌋).toNat

/-- One early-reflection tap: millisecond offset and per-channel gains. -/
structure EarlyReflection where
  timeMs : ℚ
  gainL : ℚ
  gainR : ℚ

/-- The eight early-reflection taps of `generateImpulseResponse`. -/
def earlyReflections : List EarlyReflection :=
  [⟨8, 0.9, 0.85⟩, ⟨15, 0.8, 0.82⟩, ⟨22, 0.7, 0.72⟩, ⟨32, 0.6, 0.58⟩,
   ⟨45, 0.5, 0.52⟩, ⟨58, 0.4, 0.38⟩, ⟨75, 0.3, 0.32⟩, ⟨95, 0.2, 0.22⟩]

/-- The left impulse sequence: unit impulse at sample 0 plus the early
reflections at `⌊timeMs · sampleRate / 1000⌋`, each guarded against
falling past the end of the buffer. -/
def buildImpulseL (sampleRate : ℚ) (len : ℕ) : List ℚ :=
  let base := (List.replicate len (0 : ℚ)).set 0 1.0
  earlyReflections.foldl (fun imp er =>
    let sampleIdxL := (⌊er.timeMs * sampleRate / 1000⌋).toNat
    if sampleIdxL < len then imp.set sampleIdxL (imp.getD sampleIdxL 0 + er.gainL)
    else imp) base

/-- The right impulse sequence: as on the left but with the taps shifted
by `+3 ms` and the right-channel gains. -/
def buildImpulseR (sampleRate : ℚ) (len : ℕ) : List ℚ :=
  let base := (List.replicate len (0 : ℚ)).set 0 1.0
  earlyReflections.foldl (fun imp er =>
    let sampleIdxR := (⌊(er.timeMs + 3) * sampleRate / 1000⌋).toNat
    if sampleIdxR < len then imp.set sampleIdxR (imp.getD sampleIdxR 0 + er.gainR)
    else imp) base

/-- The `exp(-clampedDecay · 0.7 · t)` decay envelope, `t = i / sampleRate`. -/
def applyDecayEnvelope (expf : ℚ → ℚ) (clampedDecay sampleRate : ℚ)
    (sig : List ℚ) : List ℚ :=
  sig.mapIdx fun i v => v * expf (-clampedDecay * 0.7 * ((i : ℚ) / sampleRate))

/-- The final single-pole low-pass `y = prev + 0.2 (x - prev)`. -/
def lowpassStep (prev : ℚ) (x : ℚ) : ℚ × ℚ :=
  let y := prev + 0.2 * (x - prev)
  (y, y)

/-- The joint peak `maxVal = max(maxVal, |left[i]|, |right[i]|)` over both
channels. -/
def maxAbsPair (l r : List ℚ) : ℚ :=
  (l.zip r).foldl (fun m ab => max m (max |ab.1| |ab.2|)) 0

/-- The final normalization: when the joint peak is positive, scale both
channels by `0.9 / maxVal`; otherwise return them untouched. -/
def normalizePair (l r : List ℚ) : List ℚ × List ℚ :=
  let maxVal := maxAbsPair l r
  if 0 < maxVal then
    let normalizeGain := 0.9 / maxVal
    (l.map (· * normalizeGain), r.map (· * normalizeGain))
  else (l, r)

/-- The two channels of `generateImpulseResponse` just before the final
normalization: clamping, impulse construction, comb bank, allpass chain,
decay envelope and warmth low-pass. The source interleaves the left and
right channels in shared loops; the channels carry no cross terms, so
they are run per channel here. `expf` and `powf` stand for `Math.exp`
and `Math.pow`; `baseFeedback` (and the `rt60` feeding it) is computed
but never used, exactly as in the source. -/
def generateImpulseResponsePre (expf : ℚ → ℚ) (powf : ℚ → ℚ → ℚ)
    (sampleRate duration decay : ℚ) : List ℚ × List ℚ :=
  let reverbDuration := max 3.0 (min 6.0 duration)
  let clampedDecay := max 0.3 (min 2.0 decay)
  let len := (⌊reverbDuration * sampleRate⌋).toNat
  let combDelaysL :=
    ([1557, 1617, 1491, 1422, 1277, 1356, 1188, 1116] : List ℕ).map (scaleDelay sampleRate)
  let combDelaysR :=
    ([1617, 1557, 1422, 1491, 1356, 1277, 1116, 1188] : List ℕ).map (scaleDelay sampleRate)
  let allpassDelays := ([556, 441, 341, 225] : List ℕ).map (scaleDelay sampleRate)
  let rt60 := reverbDuration * 0.9
  let roomSize : ℚ := 0.85
  let baseFeedback := powf 0.001 (1 / (rt60 * sampleRate / 1000))
  let damping : ℚ := 0.4
  let allpassFeedback : ℚ := 0.5
  let impulseL := buildImpulseL sampleRate len
  let impulseR := buildImpulseR sampleRate len
  let combOutputL := scanOut (combBankStep roomSize damping) (initCombBank combDelaysL) impulseL
  let combOutputR := scanOut (combBankStep roomSize damping) (initCombBank combDelaysR) impulseR
  let diffusedL := allpassChain allpassFeedback allpassDelays combOutputL
  let diffusedR := allpassChain allpassFeedback allpassDelays combOutputR
  let envL := applyDecayEnvelope expf clampedDecay sampleRate diffusedL
  let envR := applyDecayEnvelope expf clampedDecay sampleRate diffusedR
  (scanOut lowpassStep 0 envL, scanOut lowpassStep 0 envR)

/-- `generateImpulseResponse(context, duration, decay)` (Variant B): the
pre-normalization pipeline followed by the joint peak normalization,
returned as a 2-channel buffer of the computed length. -/
def generateImpulseResponse (expf : ℚ → ℚ) (powf : ℚ → ℚ → ℚ)
    (sampleRate duration decay : ℚ) : IRBuffer :=
  let pre := generateImpulseResponsePre expf powf sampleRate duration decay
  let normalized := normalizePair pre.1 pre.2
  { numberOfChannels := 2
    sampleRate := sampleRate
    left := normalized.1
    right := normalized.2 }


/-! ### Length preservation through the synthesis pipeline -/

theorem length_foldl_preserve {α : Type} (step : List ℚ → α → List ℚ)
    (h : ∀ b a, (step b a).length = b.length) (l : List α) (b : List ℚ) :
    (l.foldl step b).length = b.length := by
  induction l generalizing b with
  | nil => rfl
  | cons x xs ih => rw [List.foldl_cons, ih, h]

theorem buildImpulseL_length (sr : ℚ) (n : ℕ) : (buildImpulseL sr n).length = n := by
  unfold buildImpulseL
  rw [length_foldl_preserve]
  · rw [List.length_set, List.length_replicate]
  · intro b a
    dsimp only
    split
    · rw [List.length_set]
    · rfl

theorem buildImpulseR_length (sr : ℚ) (n : ℕ) : (buildImpulseR sr n).length = n := by
  unfold buildImpulseR
  rw [length_foldl_preserve]
  · rw [List.length_set, List.length_replicate]
  · intro b a
    dsimp only
    split
    · rw [List.length_set]
    · rfl

theorem allpassChain_length (fb : ℚ) (delays : List ℕ) (sig : List ℚ) :
    (allpassChain fb delays sig).length = sig.length := by
  unfold allpassChain
  induction delays generalizing sig with
  | nil => rfl
  | cons d ds ih => rw [List.foldl_cons, ih, scanOut_length]

theorem applyDecayEnvelope_length (expf : ℚ → ℚ) (cd sr : ℚ) (sig : List ℚ) :
    (applyDecayEnvelope expf cd sr sig).length = sig.length := by
  simp [applyDecayEnvelope]

theorem generateImpulseResponsePre_length (expf : ℚ → ℚ) (powf : ℚ → ℚ → ℚ)
    (sr d k : ℚ) :
    (generateImpulseResponsePre expf powf sr d k).1.length
      = (⌊max 3.0 (min 6.0 d) * sr⌋).toNat ∧
    (generateImpulseResponsePre expf powf sr d k).2.length
      = (⌊max 3.0 (min 6.0 d) * sr⌋).toNat := by
  constructor
  · show (scanOut lowpassStep 0 (applyDecayEnvelope expf (max 0.3 (min 2.0 k)) sr
      (allpassChain 0.5 (([556, 441, 341, 225] : List ℕ).map (scaleDelay sr))
        (scanOut (combBankStep 0.85 0.4)
          (initCombBank (([1557, 1617, 1491, 1422, 1277, 1356, 1188, 1116] : List ℕ).map
            (scaleDelay sr)))
          (buildImpulseL sr (⌊max 3.0 (min 6.0 d) * sr⌋).toNat))))).length = _
    rw [scanOut_length, applyDecayEnvelope_length, allpassChain_length, scanOut_length,
      buildImpulseL_length]
  · show (scanOut lowpassStep 0 (applyDecayEnvelope expf (max 0.3 (min 2.0 k)) sr
      (allpassChain 0.5 (([556, 441, 341, 225] : List ℕ).map (scaleDelay sr))
        (scanOut (combBankStep 0.85 0.4)
          (initCombBank (([1617, 1557, 1422, 1491, 1356, 1277, 1116, 1188] : List ℕ).map
            (scaleDelay sr)))
          (buildImpulseR sr (⌊max 3.0 (min 6.0 d) * sr⌋).toNat))))).length = _
    rw [scanOut_length, applyDecayEnvelope_length, allpassChain_length, scanOut_length,
      buildImpulseR_length]

theorem normalizePair_length (l r : List ℚ) :
    (normalizePair l r).1.length = l.length ∧ (normalizePair l r).2.length = r.length := by
  by_cases h : 0 < maxAbsPair l r
  · simp [normalizePair, h]
  · simp [normalizePair, h]

/-- Claim C4: for every sample rate, duration and decay, the Variant B
generator returns a buffer with exactly 2 channels whose per-channel
length is `⌊clamp(duration, 3, 6) · sampleRate⌋` samples, and the decay
parameter is clamped to `[0.3, 2.0]` before use (generating with `decay`
and with `clamp(decay)` gives identical buffers). -/
theorem variantB_buffer_shape (expf : ℚ → ℚ) (powf : ℚ → ℚ → ℚ) (sr d k : ℚ) :
    (generateImpulseResponse expf powf sr d k).numberOfChannels = 2 ∧
    (generateImpulseResponse expf powf sr d k).left.length
      = (⌊max 3.0 (min 6.0 d) * sr⌋).toNat ∧
    (generateImpulseResponse expf powf sr d k).right.length
      = (⌊max 3.0 (min 6.0 d) * sr⌋).toNat ∧
    generateImpulseResponse expf powf sr d k
      = generateImpulseResponse expf powf sr d (max 0.3 (min 2.0 k)) := by
  have hpre := generateImpulseResponsePre_length expf powf sr d k
  have hL : (generateImpulseResponse expf powf sr d k).left
      = (normalizePair (generateImpulseResponsePre expf powf sr d k).1
          (generateImpulseResponsePre expf powf sr d k).2).1 := rfl
  have hR : (generateImpulseResponse expf powf sr d k).right
      = (normalizePair (generateImpulseResponsePre expf powf sr d k).1
          (generateImpulseResponsePre expf powf sr d k).2).2 := rfl
  have hidem : max (0.3 : ℚ) (min 2.0 (max 0.3 (min 2.0 k))) = max 0.3 (min 2.0 k) := by
    have h1 : (0.3 : ℚ) ≤ max 0.3 (min 2.0 k) := le_max_left _ _
    have h2 : max (0.3 : ℚ) (min 2.0 k) ≤ 2.0 := max_le (by norm_num) (min_le_left _ _)
    rw [min_eq_right h2, max_eq_right h1]
  have hpre_eq : generateImpulseResponsePre expf powf sr d k
      = generateImpulseResponsePre expf powf sr d (max 0.3 (min 2.0 k)) := by
    simp only [generateImpulseResponsePre]
    rw [hidem]
  refine ⟨rfl, ?_, ?_, ?_⟩
  · rw [hL, (normalizePair_length _ _).1, hpre.1]
  · rw [hR, (normalizePair_length _ _).2, hpre.2]
  · simp only [generateImpulseResponse]
    rw [hpre_eq]


/-! ### Peak computation and normalization facts -/

theorem le_foldl_max {α : Type} (g : α → ℚ) (xs : List α) (b : ℚ) :
    b ≤ xs.foldl (fun m a => max m (g a)) b := by
  induction xs generalizing b with
  | nil => exact le_refl b
  | cons x xs ih => exact le_trans (le_max_left b (g x)) (ih (max b (g x)))

theorem mem_le_foldl_max {α : Type} (g : α → ℚ) (xs : List α) (b : ℚ) (x : α)
    (hx : x ∈ xs) : g x ≤ xs.foldl (fun m a => max m (g a)) b := by
  induction xs generalizing b with
  | nil => cases hx
  | cons y ys ih =>
    rcases List.mem_cons.mp hx with h | h
    · subst h
      exact le_trans (le_max_right b (g x)) (le_foldl_max g ys (max b (g x)))
    · exact ih (max b (g y)) h

theorem foldl_max_eq_init_or_mem {α : Type} (g : α → ℚ) (xs : List α) (b : ℚ) :
    xs.foldl (fun m a => max m (g a)) b = b ∨
    ∃ x ∈ xs, xs.foldl (fun m a => max m (g a)) b = g x := by
  induction xs generalizing b with
  | nil => left; rfl
  | cons y ys ih =>
    rcases ih (max b (g y)) with h | ⟨x, hx, hres⟩
    · rcases max_choice b (g y) with h2 | h2
      · left
        rw [List.foldl_cons, h, h2]
      · right
        exact ⟨y, List.mem_cons_self y ys, by rw [List.foldl_cons, h, h2]⟩
    · right
      exact ⟨x, List.mem_cons_of_mem y hx, by rw [List.foldl_cons]; exact hres⟩

theorem maxAbsPair_nonneg (l r : List ℚ) : 0 ≤ maxAbsPair l r :=
  le_foldl_max _ (l.zip r) 0

theorem maxAbsPair_bound (l r : List ℚ) (hlen : l.length = r.length) :
    (∀ x ∈ l, |x| ≤ maxAbsPair l r) ∧ (∀ x ∈ r, |x| ≤ maxAbsPair l r) := by
  constructor
  · intro x hx
    obtain ⟨i, hi, hix⟩ := List.mem_iff_getElem.mp hx
    have hir : i < r.length := by omega
    have hiz : i < (l.zip r).length := by
      rw [List.length_zip]
      omega
    have hmem : (l[i], r[i]) ∈ l.zip r := by
      have := @List.getElem_zip ℚ ℚ l r i hiz
      rw [← this]
      exact List.getElem_mem hiz
    have := mem_le_foldl_max (fun ab : ℚ × ℚ => max |ab.1| |ab.2|) (l.zip r) 0 _ hmem
    rw [← hix]
    exact le_trans (le_max_left _ _) this
  · intro x hx
    obtain ⟨i, hi, hix⟩ := List.mem_iff_getElem.mp hx
    have hil : i < l.length := by omega
    have hiz : i < (l.zip r).length := by
      rw [List.length_zip]
      omega
    have hmem : (l[i], r[i]) ∈ l.zip r := by
      have := @List.getElem_zip ℚ ℚ l r i hiz
      rw [← this]
      exact List.getElem_mem hiz
    have := mem_le_foldl_max (fun ab : ℚ × ℚ => max |ab.1| |ab.2|) (l.zip r) 0 _ hmem
    rw [← hix]
    exact le_trans (le_max_right _ _) this

theorem maxAbsPair_attained (l r : List ℚ) (h : 0 < maxAbsPair l r) :
    ∃ x, (x ∈ l ∨ x ∈ r) ∧ |x| = maxAbsPair l r := by
  rcases foldl_max_eq_init_or_mem (fun ab : ℚ × ℚ => max |ab.1| |ab.2|) (l.zip r) 0 with
    h0 | ⟨ab, hab, hres⟩
  · exfalso
    rw [maxAbsPair, h0] at h
    exact absurd h (lt_irrefl 0)
  · obtain ⟨ha, hb⟩ := List.of_mem_zip hab
    rcases max_choice |ab.1| |ab.2| with h2 | h2
    · exact ⟨ab.1, Or.inl ha, by rw [maxAbsPair, hres, h2]⟩
    · exact ⟨ab.2, Or.inr hb, by rw [maxAbsPair, hres, h2]⟩

/-- Claim C5: every sample of both channels of a Variant B buffer lies in
`[-1, 1]`: when the pre-normalization joint peak is positive the
normalization makes the global maximum absolute sample exactly `0.9`
(every sample bounded by `0.9`, and some sample attaining it), and when
the peak is `0` the channels are returned untouched as all-zero silence. -/
theorem variantB_output_in_range (expf : ℚ → ℚ) (powf : ℚ → ℚ → ℚ) (sr d k : ℚ) :
    (∀ x ∈ (generateImpulseResponse expf powf sr d k).left, -1 ≤ x ∧ x ≤ 1) ∧
    (∀ x ∈ (generateImpulseResponse expf powf sr d k).right, -1 ≤ x ∧ x ≤ 1) ∧
    (0 < maxAbsPair (generateImpulseResponsePre expf powf sr d k).1
        (generateImpulseResponsePre expf powf sr d k).2 →
      (∀ x ∈ (generateImpulseResponse expf powf sr d k).left, |x| ≤ 0.9) ∧
      (∀ x ∈ (generateImpulseResponse expf powf sr d k).right, |x| ≤ 0.9) ∧
      ∃ x, (x ∈ (generateImpulseResponse expf powf sr d k).left ∨
            x ∈ (generateImpulseResponse expf powf sr d k).right) ∧ |x| = 0.9) ∧
    (maxAbsPair (generateImpulseResponsePre expf powf sr d k).1
        (generateImpulseResponsePre expf powf sr d k).2 = 0 →
      (generateImpulseResponse expf powf sr d k).left
        = (generateImpulseResponsePre expf powf sr d k).1 ∧
      (generateImpulseResponse expf powf sr d k).right
        = (generateImpulseResponsePre expf powf sr d k).2 ∧
      (∀ x ∈ (generateImpulseResponse expf powf sr d k).left, x = 0) ∧
      (∀ x ∈ (generateImpulseResponse expf powf sr d k).right, x = 0)) := by
  have hplen := generateImpulseResponsePre_length expf powf sr d k
  set L := (generateImpulseResponsePre expf powf sr d k).1 with hLdef
  set R := (generateImpulseResponsePre expf powf sr d k).2 with hRdef
  have hlen : L.length = R.length := by rw [hplen.1, hplen.2]
  have hbnd := maxAbsPair_bound L R hlen
  have hgl : (generateImpulseResponse expf powf sr d k).left = (normalizePair L R).1 := rfl
  have hgr : (generateImpulseResponse expf powf sr d k).right = (normalizePair L R).2 := rfl
  rw [hgl, hgr]
  set M := maxAbsPair L R with hM
  by_cases hpos : 0 < M
  · have hnorm : normalizePair L R
        = (L.map (fun x => x * (0.9 / M)), R.map (fun x => x * (0.9 / M))) := by
      simp only [normalizePair]
      rw [← hM, if_pos hpos]
    rw [hnorm]
    have hMne : M ≠ 0 := ne_of_gt hpos
    have hg : (0 : ℚ) < 0.9 / M := by positivity
    have habs : ∀ y : ℚ, |y * (0.9 / M)| = |y| * (0.9 / M) := fun y => by
      rw [abs_mul, abs_of_pos hg]
    have hcancel : M * (0.9 / M) = 0.9 := by field_simp
    have hb1 : ∀ x ∈ L.map (fun y => y * (0.9 / M)), |x| ≤ 0.9 := by
      intro x hx
      obtain ⟨y, hy, rfl⟩ := List.mem_map.mp hx
      rw [habs]
      calc |y| * (0.9 / M) ≤ M * (0.9 / M) :=
            mul_le_mul_of_nonneg_right (hbnd.1 y hy) (le_of_lt hg)
        _ = 0.9 := hcancel
    have hb2 : ∀ x ∈ R.map (fun y => y * (0.9 / M)), |x| ≤ 0.9 := by
      intro x hx
      obtain ⟨y, hy, rfl⟩ := List.mem_map.mp hx
      rw [habs]
      calc |y| * (0.9 / M) ≤ M * (0.9 / M) :=
            mul_le_mul_of_nonneg_right (hbnd.2 y hy) (le_of_lt hg)
        _ = 0.9 := hcancel
    have hin1 : ∀ x ∈ L.map (fun y => y * (0.9 / M)), -1 ≤ x ∧ x ≤ 1 := by
      intro x hx
      have := hb1 x hx
      constructor <;> [skip; skip] <;>
        (first
          | exact (abs_le.mp (le_trans this (by norm_num))).1
          | exact (abs_le.mp (le_trans this (by norm_num))).2)
    have hin2 : ∀ x ∈ R.map (fun y => y * (0.9 / M)), -1 ≤ x ∧ x ≤ 1 := by
      intro x hx
      have := hb2 x hx
      exact abs_le.mp (le_trans this (by norm_num))
    refine ⟨hin1, hin2, fun _ => ⟨hb1, hb2, ?_⟩, fun h0 => absurd (h0 ▸ hpos) (lt_irrefl 0)⟩
    obtain ⟨y, hy, hyabs⟩ := maxAbsPair_attained L R hpos
    rw [← hM] at hyabs
    refine ⟨y * (0.9 / M), ?_, ?_⟩
    · rcases hy with hy | hy
      · exact Or.inl (List.mem_map_of_mem _ hy)
      · exact Or.inr (List.mem_map_of_mem _ hy)
    · rw [habs, hyabs, hcancel]
  · have hzero : M = 0 := le_antisymm (not_lt.mp hpos) (hM ▸ maxAbsPair_nonneg L R)
    have hnorm : normalizePair L R = (L, R) := by
      simp only [normalizePair]
      rw [← hM, if_neg hpos]
    rw [hnorm]
    have hallL : ∀ x ∈ L, x = 0 := by
      intro x hx
      have h1 := hbnd.1 x hx
      rw [hzero] at h1
      exact abs_eq_zero.mp (le_antisymm h1 (abs_nonneg x))
    have hallR : ∀ x ∈ R, x = 0 := by
      intro x hx
      have h1 := hbnd.2 x hx
      rw [hzero] at h1
      exact abs_eq_zero.mp (le_antisymm h1 (abs_nonneg x))
    refine ⟨?_, ?_, fun hcon => absurd (hzero ▸ hcon) (lt_irrefl 0), fun _ => ⟨rfl, rfl, hallL, hallR⟩⟩
    · intro x hx
      rw [hallL x hx]
      norm_num
    · intro x hx
      rw [hallR x hx]
      norm_num


/-- Claim C6: in the comb-filter stage the value re-injected into the
ring buffer is `input + filterStore · 0.85` (the `roomSize` constant),
where `filterStore` has been updated by the one-pole low-pass
`filterStore = output·(1 - 0.4) + filterStore·0.4` (`damping = 0.4`), the
emitted sample being the slot under the cursor; and `baseFeedback`
(computed from `Math.pow`) is never applied, so the generated buffer is
independent of the `Math.pow` primitive entirely. -/
theorem comb_feedback_uses_roomSize_not_baseFeedback (x : ℚ) (c : CombState)
    (hidx : c.idx < c.buf.length) :
    ((combStep 0.85 0.4 c x).2).store
      = c.buf.getD c.idx 0 * (1 - 0.4) + c.store * 0.4 ∧
    ((combStep 0.85 0.4 c x).2).buf.getD c.idx 0
      = x + ((combStep 0.85 0.4 c x).2).store * 0.85 ∧
    (combStep 0.85 0.4 c x).1 = c.buf.getD c.idx 0 ∧
    (∀ (expf : ℚ → ℚ) (powf1 powf2 : ℚ → ℚ → ℚ) (sr d k : ℚ),
      generateImpulseResponse expf powf1 sr d k
        = generateImpulseResponse expf powf2 sr d k) := by
  refine ⟨rfl, ?_, rfl, ?_⟩
  · have h2 : (combStep 0.85 0.4 c x).2.buf
        = c.buf.set c.idx (x + ((combStep 0.85 0.4 c x).2.store) * 0.85) := rfl
    rw [h2, getD_set_self_of_lt _ _ _ hidx]
  · intro expf powf1 powf2 sr d k
    rfl

/-- Claim C6 witness: the comb-step equations on a concrete filter state. -/
theorem comb_feedback_uses_roomSize_not_baseFeedback_witness :
    ((combStep 0.85 0.4 ⟨[0, 0], 0, 0⟩ 1).2).store
      = ([(0 : ℚ), 0] : List ℚ).getD 0 0 * (1 - 0.4) + 0 * 0.4 ∧
    ((combStep 0.85 0.4 ⟨[0, 0], 0, 0⟩ 1).2).buf.getD 0 0
      = 1 + ((combStep 0.85 0.4 ⟨[0, 0], 0, 0⟩ 1).2).store * 0.85 ∧
    (combStep 0.85 0.4 ⟨[0, 0], 0, 0⟩ 1).1 = ([(0 : ℚ), 0] : List ℚ).getD 0 0 ∧
    (∀ (expf : ℚ → ℚ) (powf1 powf2 : ℚ → ℚ → ℚ) (sr d k : ℚ),
      generateImpulseResponse expf powf1 sr d k
        = generateImpulseResponse expf powf2 sr d k) :=
  comb_feedback_uses_roomSize_not_baseFeedback 1 ⟨[0, 0], 0, 0⟩ (by norm_num)


/-! ## Variant A: the simple decaying-noise generator of the injected
content script (`generateImpulseResponse(context, duration)`). -/

namespace VariantA

/-- The injected script's `generateImpulseResponse`: clamp the duration
to `[1.5, 3.0]`, then fill both channels with
`(Math.random() - 0.5) * 2 * exp(-3 i / length)`. `rnd` is the host's
`Math.random` stream indexed by draw order (the left channel draws first
at each `i`, then the right); `expf` is `Math.exp`. The JavaScript
declaration binds only `(context, duration)`; a `decay` argument passed
by a caller is accepted and ignored by JavaScript semantics, which the
trailing unused parameter mirrors. -/
def generateImpulseResponse (rnd : ℕ → ℚ) (expf : ℚ → ℚ)
    (sampleRate duration decay : ℚ) : IRBuffer :=
  let irDuration := max 1.5 (min 3.0 duration)
  let len := (⌊irDuration * sampleRate⌋).toNat
  { numberOfChannels := 2
    sampleRate := sampleRate
    left := (List.range len).map fun (i : ℕ) =>
      (rnd (2 * i) - 0.5) * 2 * expf (-3 * (i : ℚ) / (len : ℚ))
    right := (List.range len).map fun (i : ℕ) =>
      (rnd (2 * i + 1) - 0.5) * 2 * expf (-3 * (i : ℚ) / (len : ℚ)) }

end VariantA

/-- Claim C7: Variant A clamps the duration to `[1.5, 3.0]`, produces
`⌊clampedDuration · sampleRate⌋` samples on each of its two channels,
each sample being an independent random draw mapped to `[-1, 1]` and
scaled by `exp(-3 i / length)` — so `|sample[i]| ≤ exp(-3 i / length)`
for every index and every draw — and the decay parameter is accepted
but has no effect on the output. -/
theorem variantA_decaying_noise (rnd : ℕ → ℚ) (expf : ℚ → ℚ) (sr d k1 k2 : ℚ) :
    VariantA.generateImpulseResponse rnd expf sr d k1
      = VariantA.generateImpulseResponse rnd expf sr d k2 ∧
    (VariantA.generateImpulseResponse rnd expf sr d k1).numberOfChannels = 2 ∧
    (VariantA.generateImpulseResponse rnd expf sr d k1).left.length
      = (⌊max 1.5 (min 3.0 d) * sr⌋).toNat ∧
    (VariantA.generateImpulseResponse rnd expf sr d k1).right.length
      = (⌊max 1.5 (min 3.0 d) * sr⌋).toNat ∧
    (∀ i < (⌊max 1.5 (min 3.0 d) * sr⌋).toNat,
      (VariantA.generateImpulseResponse rnd expf sr d k1).left.getD i 0
        = (rnd (2 * i) - 0.5) * 2
            * expf (-3 * (i : ℚ) / (((⌊max 1.5 (min 3.0 d) * sr⌋).toNat : ℕ) : ℚ)) ∧
      (VariantA.generateImpulseResponse rnd expf sr d k1).right.getD i 0
        = (rnd (2 * i + 1) - 0.5) * 2
            * expf (-3 * (i : ℚ) / (((⌊max 1.5 (min 3.0 d) * sr⌋).toNat : ℕ) : ℚ))) ∧
    ((∀ n, 0 ≤ rnd n ∧ rnd n ≤ 1) → (∀ q, 0 ≤ expf q) →
      ∀ i < (⌊max 1.5 (min 3.0 d) * sr⌋).toNat,
        |(VariantA.generateImpulseResponse rnd expf sr d k1).left.getD i 0|
          ≤ expf (-3 * (i : ℚ) / (((⌊max 1.5 (min 3.0 d) * sr⌋).toNat : ℕ) : ℚ)) ∧
        |(VariantA.generateImpulseResponse rnd expf sr d k1).right.getD i 0|
          ≤ expf (-3 * (i : ℚ) / (((⌊max 1.5 (min 3.0 d) * sr⌋).toNat : ℕ) : ℚ))) := by
  have hgetL : ∀ i < (⌊max 1.5 (min 3.0 d) * sr⌋).toNat,
      (VariantA.generateImpulseResponse rnd expf sr d k1).left.getD i 0
        = (rnd (2 * i) - 0.5) * 2
            * expf (-3 * (i : ℚ) / (((⌊max 1.5 (min 3.0 d) * sr⌋).toNat : ℕ) : ℚ)) := by
    intro i hi
    exact getD_map_range _ _ i 0 hi
  have hgetR : ∀ i < (⌊max 1.5 (min 3.0 d) * sr⌋).toNat,
      (VariantA.generateImpulseResponse rnd expf sr d k1).right.getD i 0
        = (rnd (2 * i + 1) - 0.5) * 2
            * expf (-3 * (i : ℚ) / (((⌊max 1.5 (min 3.0 d) * sr⌋).toNat : ℕ) : ℚ)) := by
    intro i hi
    exact getD_map_range _ _ i 0 hi
  have habs : ∀ (r e : ℚ), 0 ≤ r → r ≤ 1 → 0 ≤ e → |(r - 0.5) * 2 * e| ≤ e := by
    intro r e hr0 hr1 he
    have h1 : |(r - 0.5) * 2| ≤ 1 := by
      rw [abs_le]
      constructor <;> [linarith; linarith]
    calc |(r - 0.5) * 2 * e| = |(r - 0.5) * 2| * |e| := abs_mul _ _
      _ = |(r - 0.5) * 2| * e := by rw [abs_of_nonneg he]
      _ ≤ 1 * e := mul_le_mul_of_nonneg_right h1 he
      _ = e := one_mul e
  refine ⟨rfl, rfl, ?_, ?_, fun i hi => ⟨hgetL i hi, hgetR i hi⟩, ?_⟩
  · show ((List.range (⌊max 1.5 (min 3.0 d) * sr⌋).toNat).map fun (i : ℕ) =>
        (rnd (2 * i) - 0.5) * 2
          * expf (-3 * (i : ℚ) / (((⌊max 1.5 (min 3.0 d) * sr⌋).toNat : ℕ) : ℚ))).length = _
    rw [List.length_map, List.length_range]
  · show ((List.range (⌊max 1.5 (min 3.0 d) * sr⌋).toNat).map fun (i : ℕ) =>
        (rnd (2 * i + 1) - 0.5) * 2
          * expf (-3 * (i : ℚ) / (((⌊max 1.5 (min 3.0 d) * sr⌋).toNat : ℕ) : ℚ))).length = _
    rw [List.length_map, List.length_range]
  · intro hrnd hexp i hi
    constructor
    · rw [hgetL i hi]
      exact habs _ _ (hrnd (2 * i)).1 (hrnd (2 * i)).2 (hexp _)
    · rw [hgetR i hi]
      exact habs _ _ (hrnd (2 * i + 1)).1 (hrnd (2 * i + 1)).2 (hexp _)

/-- Claim C7 witness: the decay bound discharged with a concrete random
stream and exponential. -/
theorem variantA_decaying_noise_witness :
    ∀ i < (⌊max 1.5 (min 3.0 (0 : ℚ)) * 1⌋).toNat,
      |(VariantA.generateImpulseResponse (fun _ => 1/2) (fun _ => 1) 1 0 0).left.getD i 0|
        ≤ (fun (_ : ℚ) => (1 : ℚ))
            (-3 * (i : ℚ) / (((⌊max 1.5 (min 3.0 (0 : ℚ)) * 1⌋).toNat : ℕ) : ℚ)) ∧
      |(VariantA.generateImpulseResponse (fun _ => 1/2) (fun _ => 1) 1 0 0).right.getD i 0|
        ≤ (fun (_ : ℚ) => (1 : ℚ))
            (-3 * (i : ℚ) / (((⌊max 1.5 (min 3.0 (0 : ℚ)) * 1⌋).toNat : ℕ) : ℚ)) :=
  (variantA_decaying_noise (fun _ => 1/2) (fun _ => 1) 1 0 0 5).2.2.2.2.2
    (fun _ => ⟨by norm_num, by norm_num⟩) (fun _ => by norm_num)


/-- Claim C4 witness: concrete channel count and shape facts. -/
theorem variantB_buffer_shape_witness :
    (generateImpulseResponse (fun _ => 0) (fun _ _ => 0) 1 0 0).numberOfChannels = 2 ∧
    (generateImpulseResponse (fun _ => 0) (fun _ _ => 0) 1 0 0).left.length
      = (⌊max 3.0 (min 6.0 (0 : ℚ)) * 1⌋).toNat :=
  ⟨(variantB_buffer_shape (fun _ => 0) (fun _ _ => 0) 1 0 0).1,
   (variantB_buffer_shape (fun _ => 0) (fun _ _ => 0) 1 0 0).2.1⟩

/-- Claim C5 witness: the range bound at a concrete instantiation. -/
theorem variantB_output_in_range_witness :
    ∀ x ∈ (generateImpulseResponse (fun _ => 0) (fun _ _ => 0) 1 0 0).left,
      -1 ≤ x ∧ x ≤ 1 :=
  (variantB_output_in_range (fun _ => 0) (fun _ _ => 0) 1 0 0).1

/-- Claim C9 witness: the two endpoint values of the wet/dry mapping. -/
theorem wet_dry_mix_formula_witness :
    (calculateWetDryMix 100).wetGain = 1.4 ∧ (calculateWetDryMix 100).dryGain = 0.75 :=
  ⟨(wet_dry_mix_formula 100).2.2.2.2.1, (wet_dry_mix_formula 100).2.2.2.2.2.1⟩


end Slowverb
